import Mathlib

/-!
# Verification of the ssh-agent-proxy aggregator

This development embeds the Go program `ssh-agent-proxy` (files `main.go` and
the two unnamed parts) in Lean 4 and proves the testable properties of its
specification.

The program aggregates several ssh-agent backends, each reachable over a unix
socket, behind a single virtual agent endpoint.  The central component is the
`proxyKeyring`, which holds the ordered list of backend socket addresses and a
mutex, and implements every operation of the agent capability set by iterating
over the backends (`agents()` iterator) and applying a per-operation
merge/failure policy.

## Embedding choices

* Protocol value types (`Key`, `Signature`, `AddedKey`, signing data,
  passphrases) are opaque to the aggregator, which only routes them; we embed
  them as `Nat` / `List Nat`.
* A backend's observable behaviour during one fan-out pass is a `Backend`
  record: whether `net.Dial` succeeds (`reachable`) and the result of each
  agent-protocol call.  An `Env` maps socket addresses to behaviours.
* Each Go method is translated as a recursive function over the socket list
  that fuses the `agents()` iterator (dial, skip-on-failure, early exit via
  `yield` returning false) with the per-operation loop body, exactly as the
  composed Go code executes.  Besides the Go return values, each operation
  returns the (unchanged) keyring, and the early-exit operations additionally
  return the ghost list of sockets for which a dial was attempted, so that
  "no backend after the first success is contacted" becomes provable.
* The mutex and concurrent sessions are modelled separately by a small
  labelled transition system (section on serialization below).
-/

/-- An ssh public key (opaque to the aggregator). -/
abbrev Key : Type := Nat

/-- An ssh signature (opaque to the aggregator). -/
abbrev Signature : Type := Nat

/-- A signer handle as returned by `Signers` (opaque to the aggregator). -/
abbrev Signer : Type := Nat

/-- A private key being added (`agent.AddedKey`, opaque to the aggregator). -/
abbrev AddedKey : Type := Nat

/-- Data to be signed (opaque byte string). -/
abbrev SignData : Type := List Nat

/-- A lock/unlock passphrase (opaque byte string). -/
abbrev Passphrase : Type := List Nat

/-- Errors surfaced by the aggregator to the protocol layer.  The only error
value the aggregator itself ever produces is
`agent.ErrExtensionUnsupported`; backend-side errors are logged, never
surfaced, so their content is irrelevant and they are embedded as `Unit`
inside `Except`. -/
inductive AgentError : Type where
  | extensionUnsupported : AgentError
deriving DecidableEq

/-- The observable behaviour of one backend agent during one fan-out pass:
whether dialing its socket succeeds, and what each agent-protocol call
returns.  `Except Unit α` stands for Go's `(α, error)`: `.error ()` is a
non-nil error (content irrelevant to the aggregator, which only logs it). -/
structure Backend : Type where
  reachable : Bool
  listRes : Except Unit (List Key)
  signersRes : Except Unit (List Signer)
  addRes : AddedKey → Except Unit Unit
  signRes : Key → SignData → Except Unit Signature
  removeRes : Key → Except Unit Unit
  removeAllRes : Except Unit Unit
  lockRes : Passphrase → Except Unit Unit
  unlockRes : Passphrase → Except Unit Unit

/-- An environment assigning to each socket address the behaviour of the
backend listening there (what `net.Dial("unix", socket)` plus the resulting
`agent.NewClient` would observe). -/
def Env : Type := String → Backend

/-- The aggregator state: `proxyKeyring` from the source.  The mutex is
modelled separately in the serialization section; the only data field is the
socket list. -/
structure proxyKeyring : Type where
  sockets : List String
deriving DecidableEq

/-- `NewProxyKeyring` from the source: stores the socket list. -/
def NewProxyKeyring (sockets : List String) : proxyKeyring :=
  { sockets := sockets }

/-- Loop of `proxyKeyring.RemoveAll`: for each agent yielded by `agents()`
(each reachable socket, in order) call `RemoveAll`; an error is only logged. -/
def removeAllLoop (env : Env) : List String → Unit
  | [] => ()
  | s :: rest =>
    if (env s).reachable then
      match (env s).removeAllRes with
      | .error _ => removeAllLoop env rest
      | .ok _ => removeAllLoop env rest
    else
      removeAllLoop env rest

/-- `proxyKeyring.RemoveAll`: runs the loop, then returns `nil`.  The first
component is the keyring after the call (the method never writes to it). -/
def RemoveAll (r : proxyKeyring) (env : Env) : proxyKeyring × Option AgentError :=
  (r, (fun _ => none) (removeAllLoop env r.sockets))

/-- Loop of `proxyKeyring.Remove`. -/
def removeLoop (env : Env) (key : Key) : List String → Unit
  | [] => ()
  | s :: rest =>
    if (env s).reachable then
      match (env s).removeRes key with
      | .error _ => removeLoop env key rest
      | .ok _ => removeLoop env key rest
    else
      removeLoop env key rest

/-- `proxyKeyring.Remove`: runs the loop, then returns `nil`. -/
def Remove (r : proxyKeyring) (env : Env) (key : Key) :
    proxyKeyring × Option AgentError :=
  (r, (fun _ => none) (removeLoop env key r.sockets))

/-- Loop of `proxyKeyring.Lock`. -/
def lockLoop (env : Env) (passphrase : Passphrase) : List String → Unit
  | [] => ()
  | s :: rest =>
    if (env s).reachable then
      match (env s).lockRes passphrase with
      | .error _ => lockLoop env passphrase rest
      | .ok _ => lockLoop env passphrase rest
    else
      lockLoop env passphrase rest

/-- `proxyKeyring.Lock`: runs the loop, then returns `nil`. -/
def Lock (r : proxyKeyring) (env : Env) (passphrase : Passphrase) :
    proxyKeyring × Option AgentError :=
  (r, (fun _ => none) (lockLoop env passphrase r.sockets))

/-- Loop of `proxyKeyring.Unlock`. -/
def unlockLoop (env : Env) (passphrase : Passphrase) : List String → Unit
  | [] => ()
  | s :: rest =>
    if (env s).reachable then
      match (env s).unlockRes passphrase with
      | .error _ => unlockLoop env passphrase rest
      | .ok _ => unlockLoop env passphrase rest
    else
      unlockLoop env passphrase rest

/-- `proxyKeyring.Unlock`: runs the loop, then returns `nil`. -/
def Unlock (r : proxyKeyring) (env : Env) (passphrase : Passphrase) :
    proxyKeyring × Option AgentError :=
  (r, (fun _ => none) (unlockLoop env passphrase r.sockets))

/-- Loop of `proxyKeyring.List`: `merged` is the accumulator; for each agent
yielded by `agents()`, call `List`; on error log and continue, otherwise
`merged = slices.Concat(merged, res)`. -/
def listLoop (env : Env) (merged : List Key) : List String → List Key
  | [] => merged
  | s :: rest =>
    if (env s).reachable then
      match (env s).listRes with
      | .error _ => listLoop env merged rest
      | .ok res => listLoop env (merged ++ res) rest
    else
      listLoop env merged rest

/-- `proxyKeyring.List` (named `ListOp` because `List` is taken in Lean):
returns `(merged, nil)`. -/
def ListOp (r : proxyKeyring) (env : Env) :
    proxyKeyring × (List Key × Option AgentError) :=
  (r, (listLoop env [] r.sockets, none))

/-- Loop of `proxyKeyring.Signers`, same shape as `listLoop`. -/
def signersLoop (env : Env) (merged : List Signer) : List String → List Signer
  | [] => merged
  | s :: rest =>
    if (env s).reachable then
      match (env s).signersRes with
      | .error _ => signersLoop env merged rest
      | .ok res => signersLoop env (merged ++ res) rest
    else
      signersLoop env merged rest

/-- `proxyKeyring.Signers`: returns `(merged, nil)`. -/
def Signers (r : proxyKeyring) (env : Env) :
    proxyKeyring × (List Signer × Option AgentError) :=
  (r, (signersLoop env [] r.sockets, none))

/-- Loop of `proxyKeyring.Add`, with a ghost trace of the sockets for which a
dial was attempted.  For each socket in order: dial (recorded in the trace);
on dial failure log and continue; otherwise call `Add` on the client; on error
log and continue; on the first success return `nil` at once (the `return nil`
inside the range body makes `yield` return false, so `agents()` stops before
dialing any further socket).  If the loop exhausts all sockets, return `nil`
as well. -/
def addLoop (env : Env) (key : AddedKey) :
    List String → Option AgentError × List String
  | [] => (none, [])
  | s :: rest =>
    if (env s).reachable then
      match (env s).addRes key with
      | .error _ =>
        let out := addLoop env key rest
        (out.1, s :: out.2)
      | .ok _ => (none, [s])
    else
      let out := addLoop env key rest
      (out.1, s :: out.2)

/-- `proxyKeyring.Add` (named `AddOp` because `Add` is taken in Lean):
returns the keyring (unchanged), the returned error (always `nil`), and the
ghost trace of dialed sockets. -/
def AddOp (r : proxyKeyring) (env : Env) (key : AddedKey) :
    proxyKeyring × Option AgentError × List String :=
  (r, addLoop env key r.sockets)

/-- Loop of `proxyKeyring.Sign`, with a ghost dial trace.  For each socket in
order: dial (recorded); on dial failure log and continue; otherwise call
`Sign(key, data)`; on error log and continue; on the first success
`return sig, nil` (stopping the iteration).  If no backend succeeds, the loop
falls through to `return nil, nil`. -/
def signLoop (env : Env) (key : Key) (data : SignData) :
    List String → (Option Signature × Option AgentError) × List String
  | [] => ((none, none), [])
  | s :: rest =>
    if (env s).reachable then
      match (env s).signRes key data with
      | .error _ =>
        let out := signLoop env key data rest
        (out.1, s :: out.2)
      | .ok sig => ((some sig, none), [s])
    else
      let out := signLoop env key data rest
      (out.1, s :: out.2)

/-- `proxyKeyring.Sign`: returns the keyring (unchanged), the result pair
`(*ssh.Signature, error)`, and the ghost trace of dialed sockets. -/
def Sign (r : proxyKeyring) (env : Env) (key : Key) (data : SignData) :
    proxyKeyring × (Option Signature × Option AgentError) × List String :=
  (r, signLoop env key data r.sockets)

/-- `proxyKeyring.Extension`: returns
`(nil, agent.ErrExtensionUnsupported)` without touching any backend; the
trace of dialed sockets is empty. -/
def Extension (r : proxyKeyring) (env : Env) (extensionType : String)
    (contents : List Nat) :
    proxyKeyring × (Option (List Nat) × Option AgentError) × List String :=
  (r, ((none, some AgentError.extensionUnsupported), []))

/-! ## Specification-side helper predicates

These phrase, in terms of the environment, what the spec calls "reachable and
answers without error" / "the first backend whose call succeeds". -/

/-- The contribution of the backend at socket `s` to the merged `List`
result: its key list if it is reachable and lists without error, nothing
otherwise. -/
def listContribution (env : Env) (s : String) : List Key :=
  if (env s).reachable then
    match (env s).listRes with
    | .error _ => []
    | .ok res => res
  else []

/-- The contribution of the backend at socket `s` to the merged `Signers`
result. -/
def signersContribution (env : Env) (s : String) : List Signer :=
  if (env s).reachable then
    match (env s).signersRes with
    | .error _ => []
    | .ok res => res
  else []

/-- `true` when the backend at socket `s` is reachable and its
`Sign(key, data)` call succeeds. -/
def signOk (env : Env) (key : Key) (data : SignData) (s : String) : Bool :=
  (env s).reachable &&
    match (env s).signRes key data with
    | .error _ => false
    | .ok _ => true

/-- `true` when the backend at socket `s` is reachable and its `Add(key)`
call succeeds. -/
def addOk (env : Env) (key : AddedKey) (s : String) : Bool :=
  (env s).reachable &&
    match (env s).addRes key with
    | .error _ => false
    | .ok _ => true

/-! ## Concrete backends and environments (used by witnesses) -/

/-- A backend whose socket cannot be dialed. -/
def backendDown : Backend :=
  { reachable := false
    listRes := .error ()
    signersRes := .error ()
    addRes := fun _ => .error ()
    signRes := fun _ _ => .error ()
    removeRes := fun _ => .error ()
    removeAllRes := .error ()
    lockRes := fun _ => .error ()
    unlockRes := fun _ => .error () }

/-- A reachable backend that answers every call with an error. -/
def backendRefusing : Backend :=
  { reachable := true
    listRes := .error ()
    signersRes := .error ()
    addRes := fun _ => .error ()
    signRes := fun _ _ => .error ()
    removeRes := fun _ => .error ()
    removeAllRes := .error ()
    lockRes := fun _ => .error ()
    unlockRes := fun _ => .error () }

/-- A reachable backend that answers every call successfully, tagged with `n`
so different backends are distinguishable. -/
def backendGood (n : Nat) : Backend :=
  { reachable := true
    listRes := .ok [n]
    signersRes := .ok [n]
    addRes := fun _ => .ok ()
    signRes := fun _ _ => .ok n
    removeRes := fun _ => .ok ()
    removeAllRes := .ok ()
    lockRes := fun _ => .ok ()
    unlockRes := fun _ => .ok () }

/-- Environment where every socket is unreachable. -/
def envAllDown : Env := fun _ => backendDown

/-- Environment where every socket is reachable but refuses every call. -/
def envAllRefusing : Env := fun _ => backendRefusing

/-- Environment matching the spec's example: backend `"a"` offline, backends
`"b"` and `"c"` reachable and able to answer (tagged 1 and 2). -/
def envABC : Env := fun s =>
  if s = "a" then backendDown
  else if s = "b" then backendGood 1
  else backendGood 2

/-! ## Serialization model (mutex discipline of `agents()`)

`agents()` acquires `r.mu` before the dial loop and releases it (by `defer`)
when the iteration stops — after the last dial of the pass, whether the pass
ran to completion or stopped early.  Each client session is served by its own
goroutine, so fan-out passes of different sessions run concurrently except
for this lock.

We model each session's fan-out pass as a script of atomic actions
`acq :: dial b₁ :: … :: dial bₖ :: rel :: []`, and the system as an
interleaving semantics: a step picks one session and executes the head of its
script; `acq` is enabled only when the lock is free.  Dials carry no lock
check of their own — mutual exclusion of dials must emerge from the lock
discipline, which is exactly what the serialization theorem proves. -/

/-- One atomic action of a session's fan-out pass. -/
inductive SessionAct : Type where
  | acq : SessionAct
  | dial : Nat → SessionAct
  | rel : SessionAct
deriving DecidableEq

/-- An event: session `sid` performed action `act`. -/
structure SessionEv : Type where
  sid : Nat
  act : SessionAct
deriving DecidableEq

/-- The script of one fan-out pass that dials the backends `bs` (for an
early-exit operation, `bs` is the prefix of the configured backends actually
dialed): lock, dial each backend in order, unlock. -/
def passScript (bs : List Nat) : List SessionAct :=
  SessionAct.acq :: (bs.map SessionAct.dial ++ [SessionAct.rel])

/-- Global state: who holds `r.mu` (if anyone), and each session's remaining
script (indexed by session id; sessions beyond the configured ones have the
empty script). -/
structure SysState : Type where
  lock : Option Nat
  scripts : Nat → List SessionAct

/-- Initial state: lock free, every session's pass still to run. -/
def initState (sessions : List (List Nat)) : SysState :=
  { lock := none
    scripts := fun i =>
      match sessions.get? i with
      | some bs => passScript bs
      | none => [] }

/-- One interleaving step: some session executes the head of its script.
`acq` blocks until the lock is free; `rel` frees it; `dial` does not touch
it — mutual exclusion of dials is not built in. -/
inductive SysStep : SysState → SessionEv → SysState → Prop where
  | acq (σ : SysState) (i : Nat) (rest : List SessionAct)
      (hs : σ.scripts i = SessionAct.acq :: rest)
      (hl : σ.lock = none) :
      SysStep σ ⟨i, SessionAct.acq⟩ ⟨some i, Function.update σ.scripts i rest⟩
  | dial (σ : SysState) (i b : Nat) (rest : List SessionAct)
      (hs : σ.scripts i = SessionAct.dial b :: rest) :
      SysStep σ ⟨i, SessionAct.dial b⟩ ⟨σ.lock, Function.update σ.scripts i rest⟩
  | rel (σ : SysState) (i : Nat) (rest : List SessionAct)
      (hs : σ.scripts i = SessionAct.rel :: rest) :
      SysStep σ ⟨i, SessionAct.rel⟩ ⟨none, Function.update σ.scripts i rest⟩

/-- Reflexive-transitive closure of `SysStep`, recording the event trace. -/
inductive SysSteps : SysState → List SessionEv → SysState → Prop where
  | nil (σ : SysState) : SysSteps σ [] σ
  | cons {σ σ' σ'' : SysState} {e : SessionEv} {tr : List SessionEv} :
      SysStep σ e σ' → SysSteps σ' tr σ'' → SysSteps σ (e :: tr) σ''

/-- A remaining script of a session that has not yet acquired the lock in its
pass. -/
def NotStarted (l : List SessionAct) : Prop :=
  ∃ bs : List Nat, l = passScript bs

/-- A remaining script of a session that is inside its pass: it holds the
lock, still has some dials to do, then releases. -/
def Holding (l : List SessionAct) : Prop :=
  ∃ bs : List Nat, l = bs.map SessionAct.dial ++ [SessionAct.rel]

/-- System invariant: every remaining script is in one of the three phases,
and the lock is held by session `i` exactly when `i`'s remaining script is in
the `Holding` phase. -/
def SysInv (σ : SysState) : Prop :=
  (∀ i : Nat, NotStarted (σ.scripts i) ∨ Holding (σ.scripts i) ∨ σ.scripts i = []) ∧
  (∀ i : Nat, σ.lock = some i ↔ Holding (σ.scripts i))

/-! ## The two entry-point variants

`src/main.go` and `src/unnamed/part_000` each define `func main()`.  Both
check `len(os.Args) < 2` and exit, build the proxy keyring from
`os.Args[1:]`, create and remove a temp file to obtain a fresh socket path
(fatal on failure), listen on it (fatal on failure), then loop accepting
connections.  `main.go` writes the loop body as
`if conn, err := socket.Accept(); err != nil { log } else { go handler(conn) }`;
`part_000` writes `conn, err := socket.Accept(); if err != nil { log;
continue }; go handler(conn)`.  We embed each variant's startup and per-accept
behaviour separately and prove them equal. -/

/-- Outcome of process startup: one of the three fatal exits, or running with
a constructed keyring. -/
inductive StartOutcome : Type where
  | fatalNoSockets : StartOutcome
  | fatalTempFile : StartOutcome
  | fatalListen : StartOutcome
  | running : proxyKeyring → StartOutcome
deriving DecidableEq

/-- What one iteration of the accept loop does with one accept result. -/
inductive AcceptEffect : Type where
  | logError : AcceptEffect
  | spawnHandler : Nat → AcceptEffect
deriving DecidableEq

/-- Startup of `src/main.go`: `args` is `os.Args` (program name included);
`tempOk` / `listenOk` are whether `os.CreateTemp` / `net.Listen` succeed. -/
def startupMainGo (args : List String) (tempOk listenOk : Bool) :
    StartOutcome :=
  if args.length < 2 then StartOutcome.fatalNoSockets
  else
    let pkr := NewProxyKeyring (args.drop 1)
    if !tempOk then StartOutcome.fatalTempFile
    else if !listenOk then StartOutcome.fatalListen
    else StartOutcome.running pkr

/-- Startup of `src/unnamed/part_000`: same checks in the same order, with
the keyring bound to `mkr` instead of `pkr`. -/
def startupPart000 (args : List String) (tempOk listenOk : Bool) :
    StartOutcome :=
  if args.length < 2 then StartOutcome.fatalNoSockets
  else
    let mkr := NewProxyKeyring (args.drop 1)
    if !tempOk then StartOutcome.fatalTempFile
    else if !listenOk then StartOutcome.fatalListen
    else StartOutcome.running mkr

/-- One accept-loop iteration of `src/main.go`: the `if err != nil` branch
logs, the `else` branch spawns a handler goroutine for the connection. -/
def acceptBodyMainGo (res : Except Unit Nat) : AcceptEffect :=
  match res with
  | .error _ => AcceptEffect.logError
  | .ok conn => AcceptEffect.spawnHandler conn

/-- One accept-loop iteration of `src/unnamed/part_000`: on error it logs
and `continue`s, so the spawn is only reached on success. -/
def acceptBodyPart000 (res : Except Unit Nat) : AcceptEffect :=
  match res with
  | .error _ => AcceptEffect.logError
  | .ok conn => AcceptEffect.spawnHandler conn

/-- The accept loop of `src/main.go`, run over a finite prefix of accept
results. -/
def acceptLoopMainGo (results : List (Except Unit Nat)) : List AcceptEffect :=
  results.map acceptBodyMainGo

/-- The accept loop of `src/unnamed/part_000`, run over a finite prefix of
accept results. -/
def acceptLoopPart000 (results : List (Except Unit Nat)) : List AcceptEffect :=
  results.map acceptBodyPart000

/-! # Theorems -/

/-! ## Loop lemmas -/

/-- The `List` loop computes the accumulator followed by the concatenation of
the per-backend contributions, in socket order. -/
theorem listLoop_eq (env : Env) (merged : List Key) (l : List String) :
    listLoop env merged l = merged ++ (l.map (listContribution env)).flatten := by
  induction l generalizing merged with
  | nil => simp [listLoop]
  | cons s rest ih =>
    by_cases h : (env s).reachable
    · cases hres : (env s).listRes with
      | error e => simp [listLoop, h, hres, listContribution, ih]
      | ok res => simp [listLoop, h, hres, listContribution, ih]
    · simp [listLoop, h, listContribution, ih]

/-- The `Signers` loop computes the accumulator followed by the concatenation
of the per-backend contributions, in socket order. -/
theorem signersLoop_eq (env : Env) (merged : List Signer) (l : List String) :
    signersLoop env merged l =
      merged ++ (l.map (signersContribution env)).flatten := by
  induction l generalizing merged with
  | nil => simp [signersLoop]
  | cons s rest ih =>
    by_cases h : (env s).reachable
    · cases hres : (env s).signersRes with
      | error e => simp [signersLoop, h, hres, signersContribution, ih]
      | ok res => simp [signersLoop, h, hres, signersContribution, ih]
    · simp [signersLoop, h, signersContribution, ih]

/-- C1: for every configured backend list and every assignment of per-backend
`List` results, the aggregator's `List` returns exactly the concatenation, in
configured backend order, of the results of the backends that are reachable
and answer without error; unreachable or erroring backends contribute nothing
and do not disturb the others' contributions, and the operation never returns
an error. -/
theorem c1_list_is_ordered_concat (r : proxyKeyring) (env : Env) :
    ListOp r env = (r, ((r.sockets.map (listContribution env)).flatten, none)) := by
  simp [ListOp, listLoop_eq]

/-- C6: `Remove`, `RemoveAll`, `Lock` and `Unlock` return a nil error for
every backend list and every combination of per-backend outcomes; failures
are only logged. -/
theorem c6_mutators_always_succeed (r : proxyKeyring) (env : Env) (key : Key)
    (passphrase : Passphrase) :
    (Remove r env key).2 = none ∧ (RemoveAll r env).2 = none ∧
    (Lock r env passphrase).2 = none ∧ (Unlock r env passphrase).2 = none :=
  ⟨rfl, rfl, rfl, rfl⟩

/-- C7: `Extension` always returns the protocol's unsupported-extension
error, never a result, and dials no backend, for every extension type,
payload and environment. -/
theorem c7_extension_unsupported (r : proxyKeyring) (env : Env)
    (extensionType : String) (contents : List Nat) :
    Extension r env extensionType contents =
      (r, ((none, some AgentError.extensionUnsupported), [])) :=
  rfl

/-- C9: every operation of the capability set leaves the stored socket list
(and hence the whole keyring state) unchanged. -/
theorem c9_sockets_read_only (r : proxyKeyring) (env : Env) (key : Key)
    (data : SignData) (added : AddedKey) (passphrase : Passphrase)
    (extensionType : String) (contents : List Nat) :
    (ListOp r env).1 = r ∧ (Signers r env).1 = r ∧
    (AddOp r env added).1 = r ∧ (Remove r env key).1 = r ∧
    (RemoveAll r env).1 = r ∧ (Lock r env passphrase).1 = r ∧
    (Unlock r env passphrase).1 = r ∧ (Sign r env key data).1 = r ∧
    (Extension r env extensionType contents).1 = r :=
  ⟨rfl, rfl, rfl, rfl, rfl, rfl, rfl, rfl, rfl⟩

/-- C10: the two entry-point variants (in `main.go` and in the unnamed
part 000) are behaviourally equivalent: the same startup checks in the same
order producing the same keyring, and accept loops that handle every accept
result identically, spawning a handler exactly when accept succeeds. -/
theorem c10_main_variants_equivalent :
    (∀ (args : List String) (tempOk listenOk : Bool),
      startupMainGo args tempOk listenOk = startupPart000 args tempOk listenOk) ∧
    (∀ results : List (Except Unit Nat),
      acceptLoopMainGo results = acceptLoopPart000 results) :=
  ⟨fun _ _ _ => rfl, fun _ => rfl⟩

/-! ## Early-exit loops: `Sign` and `Add` -/

/-- If every socket in `before` fails to produce a signature (unreachable or
erroring) and socket `s` succeeds, the sign loop returns `s`'s signature and
dials exactly `before ++ [s]`: the failures are skipped and nothing after the
first success is dialed. -/
theorem signLoop_first (env : Env) (key : Key) (data : SignData)
    (before : List String) (s : String) (after : List String)
    (hbefore : ∀ t ∈ before, signOk env key data t = false)
    (hs : signOk env key data s = true) :
    ∃ sig, (env s).signRes key data = Except.ok sig ∧
      signLoop env key data (before ++ s :: after) =
        ((some sig, none), before ++ [s]) := by
  induction before with
  | nil =>
    simp only [signOk, Bool.and_eq_true] at hs
    obtain ⟨hr, hok⟩ := hs
    cases hres : (env s).signRes key data with
    | error e => rw [hres] at hok; simp at hok
    | ok sig => exact ⟨sig, rfl, by simp [signLoop, hr, hres]⟩
  | cons t rest ih =>
    have ht : signOk env key data t = false := hbefore t (List.mem_cons_self t rest)
    obtain ⟨sig, hsig, hrec⟩ := ih fun u hu => hbefore u (List.mem_cons_of_mem t hu)
    refine ⟨sig, hsig, ?_⟩
    by_cases hr : (env t).reachable
    · cases hrt : (env t).signRes key data with
      | error e => simp [signLoop, hr, hrt, hrec]
      | ok sg => simp [signOk, hr, hrt] at ht
    · simp [signLoop, hr, hrec]

/-- If no socket in the whole list can produce a signature, the sign loop
returns `(nil, nil)`. -/
theorem signLoop_all_fail (env : Env) (key : Key) (data : SignData)
    (l : List String) (h : ∀ t ∈ l, signOk env key data t = false) :
    (signLoop env key data l).1 = (none, none) := by
  induction l with
  | nil => rfl
  | cons t rest ih =>
    have ht : signOk env key data t = false := h t (List.mem_cons_self t rest)
    have hrest := ih fun u hu => h u (List.mem_cons_of_mem t hu)
    by_cases hr : (env t).reachable
    · cases hrt : (env t).signRes key data with
      | error e => simp [signLoop, hr, hrt, hrest]
      | ok sg => simp [signOk, hr, hrt] at ht
    · simp [signLoop, hr, hrest]

/-- If every socket in `before` fails to accept the key and socket `s`
accepts it, the add loop returns `nil` after dialing exactly
`before ++ [s]`. -/
theorem addLoop_first (env : Env) (key : AddedKey)
    (before : List String) (s : String) (after : List String)
    (hbefore : ∀ t ∈ before, addOk env key t = false)
    (hs : addOk env key s = true) :
    addLoop env key (before ++ s :: after) = (none, before ++ [s]) := by
  induction before with
  | nil =>
    simp only [addOk, Bool.and_eq_true] at hs
    obtain ⟨hr, hok⟩ := hs
    cases hres : (env s).addRes key with
    | error e => rw [hres] at hok; simp at hok
    | ok u => simp [addLoop, hr, hres]
  | cons t rest ih =>
    have ht : addOk env key t = false := hbefore t (List.mem_cons_self t rest)
    have hrec := ih fun u hu => hbefore u (List.mem_cons_of_mem t hu)
    by_cases hr : (env t).reachable
    · cases hrt : (env t).addRes key with
      | error e => simp [addLoop, hr, hrt, hrec]
      | ok u => simp [addOk, hr, hrt] at ht
    · simp [addLoop, hr, hrec]

/-- C2: `Sign` returns the signature of the first backend in configured order
whose sign call succeeds; unreachable or failing backends before it are
skipped, and no backend after the first success is dialed (the trace stops at
the successful socket). -/
theorem c2_sign_first_success (r : proxyKeyring) (env : Env) (key : Key)
    (data : SignData) (before : List String) (s : String) (after : List String)
    (hsplit : r.sockets = before ++ s :: after)
    (hbefore : ∀ t ∈ before, signOk env key data t = false)
    (hs : signOk env key data s = true) :
    ∃ sig, (env s).signRes key data = Except.ok sig ∧
      Sign r env key data = (r, ((some sig, none), before ++ [s])) := by
  obtain ⟨sig, hsig, hloop⟩ := signLoop_first env key data before s after hbefore hs
  exact ⟨sig, hsig, by simp [Sign, hsplit, hloop]⟩

/-- Witness for C2, instantiating the spec's example: backends
`["a", "b", "c"]` with `"a"` offline and `"b"`, `"c"` able to sign; the
returned signature is `"b"`'s (tag 1) and `"c"` is never dialed. -/
theorem c2_sign_first_success_witness :
    (NewProxyKeyring ["a", "b", "c"]).sockets = ["a"] ++ "b" :: ["c"] ∧
    (∀ t ∈ (["a"] : List String), signOk envABC 0 [] t = false) ∧
    signOk envABC 0 [] "b" = true ∧
    ∃ sig, (envABC "b").signRes 0 [] = Except.ok sig ∧
      Sign (NewProxyKeyring ["a", "b", "c"]) envABC 0 [] =
        (NewProxyKeyring ["a", "b", "c"], ((some sig, none), ["a"] ++ ["b"])) :=
  ⟨rfl, by decide, by decide,
    c2_sign_first_success (NewProxyKeyring ["a", "b", "c"]) envABC 0 []
      ["a"] "b" ["c"] rfl (by decide) (by decide)⟩

/-- C3: `Add` contacts backends in configured order and stops at the first
backend that accepts the identity: it returns `nil` and the dial trace is
exactly the failing prefix followed by the accepting socket, so no later
backend is contacted. -/
theorem c3_add_stops_at_first_success (r : proxyKeyring) (env : Env)
    (key : AddedKey) (before : List String) (s : String) (after : List String)
    (hsplit : r.sockets = before ++ s :: after)
    (hbefore : ∀ t ∈ before, addOk env key t = false)
    (hs : addOk env key s = true) :
    AddOp r env key = (r, (none, before ++ [s])) := by
  simp [AddOp, hsplit, addLoop_first env key before s after hbefore hs]

/-- Witness for C3: backends `["a", "b", "c"]` with `"a"` offline and `"b"`
accepting; the trace is `["a", "b"]`, so `"c"` is never dialed. -/
theorem c3_add_stops_at_first_success_witness :
    (NewProxyKeyring ["a", "b", "c"]).sockets = ["a"] ++ "b" :: ["c"] ∧
    (∀ t ∈ (["a"] : List String), addOk envABC 7 t = false) ∧
    addOk envABC 7 "b" = true ∧
    AddOp (NewProxyKeyring ["a", "b", "c"]) envABC 7 =
      (NewProxyKeyring ["a", "b", "c"], (none, ["a"] ++ ["b"])) :=
  ⟨rfl, by decide, by decide,
    c3_add_stops_at_first_success (NewProxyKeyring ["a", "b", "c"]) envABC 7
      ["a"] "b" ["c"] rfl (by decide) (by decide)⟩

/-- C4: if no backend produces a signature (all unreachable or all sign calls
failing), `Sign` returns a nil signature together with a nil error — not a
distinct error value. -/
theorem c4_sign_no_success_nil_nil (r : proxyKeyring) (env : Env) (key : Key)
    (data : SignData)
    (h : ∀ t ∈ r.sockets, signOk env key data t = false) :
    (Sign r env key data).2.1 = (none, none) := by
  simpa [Sign] using signLoop_all_fail env key data r.sockets h

/-- Witness for C4: two reachable backends that refuse to sign. -/
theorem c4_sign_no_success_nil_nil_witness :
    (∀ t ∈ (NewProxyKeyring ["a", "b"]).sockets, signOk envAllRefusing 5 [1] t = false) ∧
    (Sign (NewProxyKeyring ["a", "b"]) envAllRefusing 5 [1]).2.1 = (none, none) :=
  ⟨by decide, c4_sign_no_success_nil_nil (NewProxyKeyring ["a", "b"])
    envAllRefusing 5 [1] (by decide)⟩

/-- The add loop's error component is `nil` on every path. -/
theorem addLoop_err_none (env : Env) (key : AddedKey) (l : List String) :
    (addLoop env key l).1 = none := by
  induction l with
  | nil => rfl
  | cons t rest ih =>
    by_cases hr : (env t).reachable
    · cases hrt : (env t).addRes key with
      | error e => simp [addLoop, hr, hrt, ih]
      | ok u => simp [addLoop, hr, hrt]
    · simp [addLoop, hr, ih]

/-- C5: if no backend accepts the identity (all unreachable or all add calls
failing), `Add` still reports success: it returns a nil error. -/
theorem c5_add_no_success_reports_success (r : proxyKeyring) (env : Env)
    (key : AddedKey) (h : ∀ t ∈ r.sockets, addOk env key t = false) :
    (AddOp r env key).2.1 = none := by
  simp [AddOp, addLoop_err_none]

/-- Witness for C5: every backend unreachable, `Add` still returns `nil`. -/
theorem c5_add_no_success_reports_success_witness :
    (∀ t ∈ (NewProxyKeyring ["a", "b"]).sockets, addOk envAllDown 7 t = false) ∧
    (AddOp (NewProxyKeyring ["a", "b"]) envAllDown 7).2.1 = none :=
  ⟨by decide, c5_add_no_success_reports_success (NewProxyKeyring ["a", "b"])
    envAllDown 7 (by decide)⟩

/-! ## Serialization: lock discipline implies serialized dials -/

/-- The empty script is not in the `Holding` phase. -/
theorem not_holding_nil : ¬ Holding ([] : List SessionAct) := by
  rintro ⟨bs, h⟩
  cases bs <;> simp at h

/-- A not-yet-started script is not in the `Holding` phase (its head is
`acq`). -/
theorem not_holding_passScript (bs : List Nat) : ¬ Holding (passScript bs) := by
  rintro ⟨cs, h⟩
  cases cs with
  | nil => simp [passScript] at h
  | cons c cs => simp [passScript] at h

/-- A form-invariant script starting with `dial b` is in the `Holding` phase,
and so is its tail. -/
theorem holding_of_head_dial {l rest : List SessionAct} {b : Nat}
    (hform : NotStarted l ∨ Holding l ∨ l = [])
    (h : l = SessionAct.dial b :: rest) : Holding l ∧ Holding rest := by
  rcases hform with ⟨bs, hns⟩ | hh | hnil
  · rw [hns, passScript] at h; simp at h
  · refine ⟨hh, ?_⟩
    obtain ⟨bs, hbs⟩ := hh
    cases bs with
    | nil => rw [hbs] at h; simp at h
    | cons c cs =>
      rw [hbs] at h
      simp only [List.map_cons, List.cons_append, List.cons.injEq] at h
      exact ⟨cs, h.2.symm⟩
  · rw [hnil] at h; simp at h

/-- A form-invariant script starting with `rel` is in the `Holding` phase and
its tail is empty: releasing the lock is the last action of a pass. -/
theorem holding_of_head_rel {l rest : List SessionAct}
    (hform : NotStarted l ∨ Holding l ∨ l = [])
    (h : l = SessionAct.rel :: rest) : Holding l ∧ rest = [] := by
  rcases hform with ⟨bs, hns⟩ | hh | hnil
  · rw [hns, passScript] at h; simp at h
  · refine ⟨hh, ?_⟩
    obtain ⟨bs, hbs⟩ := hh
    cases bs with
    | nil =>
      rw [hbs] at h
      simp only [List.map_nil, List.nil_append, List.cons.injEq] at h
      exact h.2.symm
    | cons c cs => rw [hbs] at h; simp at h
  · rw [hnil] at h; simp at h

/-- A form-invariant script starting with `acq` has a `Holding` tail. -/
theorem holding_tail_of_head_acq {l rest : List SessionAct}
    (hform : NotStarted l ∨ Holding l ∨ l = [])
    (h : l = SessionAct.acq :: rest) : Holding rest := by
  rcases hform with ⟨bs, hns⟩ | hh | hnil
  · rw [hns] at h
    simp only [passScript, List.cons.injEq] at h
    exact ⟨bs, h.2.symm⟩
  · obtain ⟨cs, hcs⟩ := hh
    cases cs with
    | nil => rw [hcs] at h; simp at h
    | cons c cs => rw [hcs] at h; simp at h
  · rw [hnil] at h; simp at h

/-- The initial state satisfies the invariant. -/
theorem sysInv_init (sessions : List (List Nat)) : SysInv (initState sessions) := by
  constructor
  · intro i
    cases hx : sessions.get? i with
    | none =>
      refine Or.inr (Or.inr ?_)
      show (match sessions.get? i with
            | some bs => passScript bs
            | none => []) = []
      rw [hx]
    | some bs =>
      refine Or.inl ⟨bs, ?_⟩
      show (match sessions.get? i with
            | some bs => passScript bs
            | none => []) = passScript bs
      rw [hx]
  · intro i
    constructor
    · intro h; exact absurd h (by simp [initState])
    · intro hhold
      exfalso
      simp only [initState] at hhold
      cases hx : sessions.get? i with
      | none => rw [hx] at hhold; exact not_holding_nil hhold
      | some bs => rw [hx] at hhold; exact not_holding_passScript bs hhold

/-- The invariant is preserved by every step. -/
theorem sysInv_step {σ σ' : SysState} {e : SessionEv}
    (hinv : SysInv σ) (hstep : SysStep σ e σ') : SysInv σ' := by
  obtain ⟨hform, hiff⟩ := hinv
  cases hstep with
  | acq i rest hs hl =>
    have hrest : Holding rest := holding_tail_of_head_acq (hform i) hs
    constructor
    · intro j
      by_cases hj : j = i
      · subst hj
        simp only [Function.update_same]
        exact Or.inr (Or.inl hrest)
      · simp only [Function.update_noteq hj]
        exact hform j
    · intro j
      constructor
      · intro hjl
        have hij : i = j := Option.some.inj hjl
        subst hij
        simp only [Function.update_same]
        exact hrest
      · intro hhold
        by_cases hj : j = i
        · subst hj; rfl
        · simp only [Function.update_noteq hj] at hhold
          have h2 := (hiff j).mpr hhold
          rw [hl] at h2
          exact absurd h2 (by simp)
  | dial i b rest hs =>
    have hpair := holding_of_head_dial (hform i) hs
    have hlock : σ.lock = some i := (hiff i).mpr hpair.1
    constructor
    · intro j
      by_cases hj : j = i
      · subst hj
        simp only [Function.update_same]
        exact Or.inr (Or.inl hpair.2)
      · simp only [Function.update_noteq hj]
        exact hform j
    · intro j
      constructor
      · intro hjl
        have h2 : σ.lock = some j := hjl
        rw [hlock] at h2
        have hij : i = j := Option.some.inj h2
        subst hij
        simp only [Function.update_same]
        exact hpair.2
      · intro hhold
        by_cases hj : j = i
        · subst hj
          exact hlock
        · simp only [Function.update_noteq hj] at hhold
          exact (hiff j).mpr hhold
  | rel i rest hs =>
    have hpair := holding_of_head_rel (hform i) hs
    have hlock : σ.lock = some i := (hiff i).mpr hpair.1
    constructor
    · intro j
      by_cases hj : j = i
      · subst hj
        simp only [Function.update_same]
        exact Or.inr (Or.inr hpair.2)
      · simp only [Function.update_noteq hj]
        exact hform j
    · intro j
      constructor
      · intro hjl
        exact absurd hjl (by simp)
      · intro hhold
        by_cases hj : j = i
        · subst hj
          simp only [Function.update_same, hpair.2] at hhold
          exact absurd hhold not_holding_nil
        · simp only [Function.update_noteq hj] at hhold
          have h2 := (hiff j).mpr hhold
          rw [hlock] at h2
          exact absurd (Option.some.inj h2).symm hj

/-- The invariant is preserved by every run. -/
theorem sysInv_steps {σ σ' : SysState} {tr : List SessionEv}
    (hinv : SysInv σ) (hsteps : SysSteps σ tr σ') : SysInv σ' := by
  revert hinv
  induction hsteps with
  | nil _ => exact id
  | cons hstep _ ih => exact fun hinv => ih (sysInv_step hinv hstep)

/-- A session whose pass has finished (empty remaining script) stays
finished after one step. -/
theorem empty_persists_step {σ σ' : SysState} {e : SessionEv} {s : Nat}
    (hstep : SysStep σ e σ') (hempty : σ.scripts s = []) :
    σ'.scripts s = [] := by
  cases hstep with
  | acq i rest hs hl =>
    by_cases hj : s = i
    · subst hj; rw [hempty] at hs; exact absurd hs (by simp)
    · show Function.update σ.scripts i rest s = []
      rw [Function.update_noteq hj]; exact hempty
  | dial i b rest hs =>
    by_cases hj : s = i
    · subst hj; rw [hempty] at hs; exact absurd hs (by simp)
    · show Function.update σ.scripts i rest s = []
      rw [Function.update_noteq hj]; exact hempty
  | rel i rest hs =>
    by_cases hj : s = i
    · subst hj; rw [hempty] at hs; exact absurd hs (by simp)
    · show Function.update σ.scripts i rest s = []
      rw [Function.update_noteq hj]; exact hempty

/-- A finished pass stays finished along any run. -/
theorem empty_persists {σ σ' : SysState} {tr : List SessionEv} {s : Nat}
    (hsteps : SysSteps σ tr σ') (hempty : σ.scripts s = []) :
    σ'.scripts s = [] := by
  revert hempty
  induction hsteps with
  | nil _ => exact id
  | cons hstep _ ih => exact fun h => ih (empty_persists_step hstep h)

/-- Key lemma: along a run that starts and ends with session `s` holding the
lock, every event is a dial by `s` itself.  No other session can acquire
(the lock is taken), hence cannot dial or release; and `s` cannot release,
because its single pass could then never hold the lock again. -/
theorem locked_all_dials {σ σ' : SysState} {s : Nat} {tr : List SessionEv}
    (hinv : SysInv σ) (hlock : σ.lock = some s)
    (hsteps : SysSteps σ tr σ') (hlock2 : σ'.lock = some s) :
    ∀ e ∈ tr, e.sid = s ∧ ∃ b, e.act = SessionAct.dial b := by
  revert hinv hlock hlock2
  induction hsteps with
  | nil _ =>
    intro _ _ _ e he
    exact absurd he (List.not_mem_nil e)
  | @cons σ0 σ1 σ2 ev tr2 hstep hrest ih =>
    intro hinv hlock hlock2
    cases hstep with
    | acq i rest hs hl =>
      rw [hl] at hlock
      exact absurd hlock (by simp)
    | dial i b rest hs =>
      have hpair := holding_of_head_dial (hinv.1 i) hs
      have hi : i = s := by
        have h2 := (hinv.2 i).mpr hpair.1
        rw [hlock] at h2
        exact (Option.some.inj h2).symm
      subst hi
      have hinv2 : SysInv _ := sysInv_step ⟨hinv.1, hinv.2⟩ (SysStep.dial _ i b rest hs)
      intro e he
      rcases List.mem_cons.mp he with rfl | he2
      · exact ⟨rfl, b, rfl⟩
      · exact ih hinv2 hlock hlock2 e he2
    | rel i rest hs =>
      have hpair := holding_of_head_rel (hinv.1 i) hs
      have hi : i = s := by
        have h2 := (hinv.2 i).mpr hpair.1
        rw [hlock] at h2
        exact (Option.some.inj h2).symm
      subst hi
      intro e he
      exfalso
      have hempty1 : (⟨none, Function.update σ0.scripts i rest⟩ : SysState).scripts i = [] := by
        show Function.update σ0.scripts i rest i = []
        rw [Function.update_same]; exact hpair.2
      have hempty2 := empty_persists hrest hempty1
      have hinv2 : SysInv _ := sysInv_step ⟨hinv.1, hinv.2⟩ (SysStep.rel _ i rest hs)
      have hinv3 := sysInv_steps hinv2 hrest
      have hhold := (hinv3.2 i).mp hlock2
      rw [hempty2] at hhold
      exact not_holding_nil hhold

/-- A run along a concatenated trace decomposes at the seam. -/
theorem sysSteps_append {σ σ'' : SysState} {t1 t2 : List SessionEv}
    (h : SysSteps σ (t1 ++ t2) σ'') :
    ∃ σ', SysSteps σ t1 σ' ∧ SysSteps σ' t2 σ'' := by
  induction t1 generalizing σ with
  | nil => exact ⟨σ, SysSteps.nil σ, h⟩
  | cons e t1 ih =>
    cases h with
    | cons hstep hrest =>
      obtain ⟨σm, h1, h2⟩ := ih hrest
      exact ⟨σm, SysSteps.cons hstep h1, h2⟩

/-- C8: two backend dials of two different sessions never overlap: in every
run of the lock-discipline model (lock acquired before the first dial of a
fan-out pass, released only after the pass), every event — in particular
every dial — that occurs between two dials of one session's pass belongs to
that same session, so fan-out passes, and hence all backend dials, are
serialized across clients. -/
theorem c8_dials_serialized (sessions : List (List Nat)) (σfin : SysState)
    (tr t1 t2 t3 : List SessionEv) (s b1 b2 : Nat)
    (hrun : SysSteps (initState sessions) tr σfin)
    (hdec : tr = t1 ++ ⟨s, SessionAct.dial b1⟩ ::
      (t2 ++ ⟨s, SessionAct.dial b2⟩ :: t3))
    (e : SessionEv) (he : e ∈ t2) : e.sid = s := by
  subst hdec
  obtain ⟨σ1, h1, h1x⟩ := sysSteps_append hrun
  cases h1x with
  | cons hd1 hrest1 =>
    obtain ⟨σ3, h2, h2x⟩ := sysSteps_append hrest1
    cases h2x with
    | cons hd2 hrest2 =>
      have hinv1 : SysInv σ1 := sysInv_steps (sysInv_init sessions) h1
      cases hd1 with
      | dial _ _ rest1 hs1 =>
        have hp1 := holding_of_head_dial (hinv1.1 s) hs1
        have hlock1 : σ1.lock = some s := (hinv1.2 s).mpr hp1.1
        have hinv2 : SysInv _ := sysInv_step hinv1 (SysStep.dial _ s b1 rest1 hs1)
        have hinv3 : SysInv σ3 := sysInv_steps hinv2 h2
        cases hd2 with
        | dial _ _ rest3 hs3 =>
          have hp3 := holding_of_head_dial (hinv3.1 s) hs3
          have hlock3 : σ3.lock = some s := (hinv3.2 s).mpr hp3.1
          exact (locked_all_dials hinv2 hlock1 h2 hlock3 e he).1

/-- Witness for C8: one session dialing backends 7, 8, 9 inside its locked
pass; the event between the dials of 7 and 9 is the dial of 8 by the same
session 0. -/
theorem c8_dials_serialized_witness :
    (⟨0, SessionAct.dial 8⟩ : SessionEv).sid = 0 :=
  c8_dials_serialized [[7, 8, 9]] _ _ [⟨0, SessionAct.acq⟩]
    [⟨0, SessionAct.dial 8⟩] [⟨0, SessionAct.rel⟩] 0 7 9
    (SysSteps.cons (SysStep.acq _ 0 _ rfl rfl)
      (SysSteps.cons (SysStep.dial _ 0 7 _ rfl)
        (SysSteps.cons (SysStep.dial _ 0 8 _ rfl)
          (SysSteps.cons (SysStep.dial _ 0 9 _ rfl)
            (SysSteps.cons (SysStep.rel _ 0 _ rfl)
              (SysSteps.nil _))))))
    rfl ⟨0, SessionAct.dial 8⟩ (List.mem_singleton.mpr rfl)
